import Mathlib

/-!
Shallow embedding of the S3-Upload-Platform multipart-upload engine:
the four multipart endpoints of server.js, the upload configuration
parsing, and the SDK compatibility guard of s3/utils.js.
-/

/-- Result of the JavaScript conversion of a request-body value as the
handlers consume it via a positive-integer check: `int n` when the converted
number satisfies `Number.isInteger`, `nonInt` when it is NaN, infinite, or has
a fractional component. -/
inductive JsNum where
  | int : Int → JsNum
  | nonInt : JsNum
deriving DecidableEq

/-- A JavaScript field value as read through the nullish-coalescing chain on
ETag fields: `absent` covers a missing field and null or undefined (both are
skipped by the coalescing operator), `nonString` a present non-string value,
`str s` a string. -/
inductive JsField where
  | absent : JsField
  | nonString : JsField
  | str : String → JsField
deriving DecidableEq

/-- A character the JavaScript string trim removes: ASCII whitespace, the
no-break space, or the byte-order mark. -/
def isWsChar (c : Char) : Bool :=
  let n := c.toNat
  n == 32 || n == 9 || n == 10 || n == 11 || n == 12 || n == 13 || n == 160 || n == 65279

/-- The JavaScript string trim, built on list operations so that it reduces
in the kernel: drop trim characters from both ends. -/
def strTrim (s : String) : String :=
  String.mk (((s.toList.dropWhile isWsChar).reverse.dropWhile isWsChar).reverse)

/-- ASCII lowercasing of one character. -/
def charToLower (c : Char) : Char :=
  if decide (65 ≤ c.toNat) && decide (c.toNat ≤ 90) then Char.ofNat (c.toNat + 32) else c

/-- The JavaScript lowercase conversion, on the ASCII range. -/
def strLower (s : String) : String :=
  String.mk (s.toList.map charToLower)

/-- Prefix test on character lists. -/
def listIsPrefixOf : List Char → List Char → Bool
  | [], _ => true
  | _ :: _, [] => false
  | a :: as, b :: bs => a == b && listIsPrefixOf as bs

/-- The JavaScript startsWith test. -/
def strStartsWith (s pre : String) : Bool :=
  listIsPrefixOf pre.toList s.toList

/-- The JavaScript endsWith test. -/
def strEndsWith (s suf : String) : Bool :=
  listIsPrefixOf suf.toList.reverse s.toList.reverse

/-- One entry of the parts array of a complete-multipart request body
(server.js lines 556-572): either a bare primitive, recorded after the
JavaScript number conversion that the handler applies to it, or an object
carrying optional PartNumber and partNumber numeric fields (again after the
number conversion) and ETag and etag fields. -/
inductive RawPart where
  | bare : JsNum → RawPart
  | obj : Option JsNum → Option JsNum → JsField → JsField → RawPart
deriving DecidableEq

/-- An entry of `parsedParts` (server.js lines 556-572): a positive part
number and the normalized client-supplied ETag (`none` when missing). -/
structure ParsedPart where
  PartNumber : Int
  ETag : Option String
deriving DecidableEq

/-- An entry of `normalizedParts` (server.js lines 627-635): a part number
with its resolved ETag, as submitted to CompleteMultipartUpload. -/
structure FinalPart where
  PartNumber : Int
  ETag : String
deriving DecidableEq

/-- The raw ETag selection of server.js line 563: take the ETag field unless
it is absent (null or undefined), in which case fall through to etag. -/
def rawEtagOf (et etl : JsField) : JsField :=
  match et with
  | .absent => etl
  | v => v

/-- The normalized ETag of server.js lines 564-565: a string is trimmed and
kept when the trimmed form is non-empty; anything else becomes null. -/
def normalizeEtag (raw : JsField) : Option String :=
  match raw with
  | .str s => if strTrim s == "" then none else some (strTrim s)
  | _ => none

/-- One step of the `parsedParts` mapping (server.js lines 556-572): resolve
the part number through PartNumber, then partNumber, then the bare entry;
drop the entry unless the number is a positive integer; normalize the ETag. -/
def parsePart : RawPart → Option ParsedPart
  | .bare n =>
    match n with
    | .int k => if 0 < k then some ⟨k, none⟩ else none
    | .nonInt => none
  | .obj pn pnl et etl =>
    let n := match pn with
      | some v => v
      | none =>
        match pnl with
        | some v => v
        | none => JsNum.nonInt
    match n with
    | .int k => if 0 < k then some ⟨k, normalizeEtag (rawEtagOf et etl)⟩ else none
    | .nonInt => none

/-- `missingPartNumbers` (server.js lines 578-580): the part numbers of the
parsed entries that carry no ETag. -/
def missingPartNumbers (l : List ParsedPart) : List Int :=
  (l.filter (fun p => p.ETag.isNone)).map (fun p => p.PartNumber)

/-- JavaScript Set insertion: keeps the first occurrence and insertion
order. -/
def insertUnique (l : List Int) (n : Int) : List Int :=
  if n ∈ l then l else l ++ [n]

/-- The construction of the `remaining` Set from `missingPartNumbers`
(server.js line 585), as an insertion-ordered duplicate-free list. -/
def toSetList (l : List Int) : List Int :=
  l.foldl insertUnique []

/-- The `etagLookup` Map (server.js line 582): an insertion-ordered
association list from part number to the listed ETag, which the store response
may omit, hence the inner `Option`. -/
abbrev Lookup := List (Int × Option String)

/-- Map membership test on the lookup. -/
def lkHas (lk : Lookup) (n : Int) : Bool :=
  lk.any (fun p => p.1 == n)

/-- Map retrieval on the lookup; `none` when the key is absent. -/
def lkGet (lk : Lookup) (n : Int) : Option (Option String) :=
  (lk.find? (fun p => p.1 == n)).map (fun p => p.2)

/-- One response page of the ListParts call issued by the reconciliation
loop. -/
structure ListPage where
  Parts : List (Int × Option String)
  IsTruncated : Bool
  NextPartNumberMarker : Option Int

/-- The body of the iteration over a listed page (server.js lines 603-608):
record the first ETag seen for each part number and delete the part number
from the remaining set. -/
def processEntry (st : Lookup × List Int) (e : Int × Option String) : Lookup × List Int :=
  ((if lkHas st.1 e.1 then st.1 else st.1 ++ [(e.1, e.2)]),
    st.2.filter (fun m => m != e.1))

/-- The reconciliation paging loop (server.js lines 588-618) with explicit
fuel; `none` means the fuel ran out before the loop exited. Each iteration
checks the while condition on the remaining set, issues one ListParts call
(`store marker`; the real command also carries Bucket, Key, UploadId and a
MaxParts of 1000), folds the page into the lookup and the remaining set, and
exits when the page is not truncated or carries no next marker. -/
def listLoop (store : Option Int → ListPage) :
    Nat → List Int → Lookup → Option Int → Option (Lookup × List Int)
  | 0, _, _, _ => none
  | fuel + 1, remaining, lk, marker =>
    if remaining.isEmpty then some (lk, remaining)
    else
      let page := store marker
      let st := page.Parts.foldl processEntry (lk, remaining)
      if !page.IsTruncated then some st
      else
        match page.NextPartNumberMarker with
        | none => some st
        | some m => listLoop store fuel st.2 st.1 (some m)

/-- JavaScript truthiness of the values an ETag variable can hold here:
null or undefined and the empty string are falsy. -/
def strTruthy : Option String → Bool
  | none => false
  | some s => s != ""

/-- The logical-or fallback applied to the client ETag and the lookup value
(server.js line 629). -/
def jsOr (a b : Option String) : Option String :=
  if strTruthy a then a else b

/-- One step of the `normalizedParts` mapping (server.js lines 627-634):
resolve the ETag from the client value or the lookup, and drop the entry when
the result is falsy. -/
def normalizeOne (lk : Lookup) (p : ParsedPart) : Option FinalPart :=
  match jsOr p.ETag ((lkGet lk p.PartNumber).getD none) with
  | some t => if t == "" then none else some ⟨p.PartNumber, t⟩
  | none => none

/-- Stable insertion into a list sorted by ascending part number. -/
def insertPart (a : FinalPart) : List FinalPart → List FinalPart
  | [] => [a]
  | b :: bs => if a.PartNumber ≤ b.PartNumber then a :: b :: bs else b :: insertPart a bs

/-- The ascending sort by part number of server.js line 635: the JavaScript
array sort with a numeric comparator is a stable ascending sort, realized here
as a stable insertion sort (any two stable sorts by the same key agree). -/
def sortParts : List FinalPart → List FinalPart
  | [] => []
  | a :: rest => insertPart a (sortParts rest)

/-- The ordering the finalize list is sorted by. -/
def partLE (a b : FinalPart) : Prop := a.PartNumber ≤ b.PartNumber

/-- Substring search for two consecutive dots. -/
def hasDotDot : List Char → Bool
  | [] => false
  | [_] => false
  | a :: b :: rest => (a == Char.ofNat 46 && b == Char.ofNat 46) || hasDotDot (b :: rest)

/-- `containsTraversal` (server.js line 256): the key contains the substring
of two consecutive dots. -/
def containsTraversal (s : String) : Bool := hasDotDot s.toList

/-- The key validation shared by the four multipart endpoints: the key starts
with a slash or contains a traversal substring. -/
def invalidKey (key : String) : Bool :=
  strStartsWith key ("/") || containsTraversal key

/-- Observable outcome of the complete-multipart handler: `reject msg` is a
400 response with that error message, `finalize b k u parts` is the single
CompleteMultipartUploadCommand sent to the store, `fuelOut` marks fuel
exhaustion of the embedded paging loop. -/
inductive CompleteResult where
  | reject : String → CompleteResult
  | finalize : String → String → String → List FinalPart → CompleteResult
  | fuelOut : CompleteResult
deriving DecidableEq

/-- Whether a complete-multipart outcome is a 400 rejection. -/
def CompleteResult.isReject : CompleteResult → Bool
  | .reject _ => true
  | _ => false

/-- The 400 message of server.js lines 620-624, naming the part numbers left
in the remaining set in insertion order. -/
def unresolvedMessage (remaining : List Int) : String :=
  "Unable to resolve ETag for parts: " ++ String.intercalate (", ") (remaining.map toString)

/-- POST /api/complete-multipart (server.js lines 545-663) up to the point
the CompleteMultipartUploadCommand is issued. `parts = none` models a body
whose parts field is not an array; `store` is the ListParts backend and `fuel`
bounds the paging loop. -/
def completeMultipart (store : Option Int → ListPage) (fuel : Nat)
    (bucket key uploadId : String) (parts : Option (List RawPart)) : CompleteResult :=
  match parts with
  | none => .reject ("key, uploadId and parts array are required")
  | some ps =>
    if key == "" || uploadId == "" then .reject ("key, uploadId and parts array are required")
    else if invalidKey key then .reject ("Invalid key")
    else
      let parsedParts := ps.filterMap parsePart
      if parsedParts.isEmpty then .reject ("parts array must include valid PartNumber values")
      else
        let missing := missingPartNumbers parsedParts
        let loopRes :=
          if missing.isEmpty then some (([] : Lookup), ([] : List Int))
          else listLoop store fuel (toSetList missing) [] none
        match loopRes with
        | none => .fuelOut
        | some (lk, remaining) =>
          if !remaining.isEmpty then .reject (unresolvedMessage remaining)
          else
            let normalizedParts := sortParts (parsedParts.filterMap (normalizeOne lk))
            if normalizedParts.length != parsedParts.length then
              .reject ("Failed to normalize all multipart upload parts")
            else .finalize bucket key uploadId normalizedParts

/-- The expected reconciliation of one parsed part: keep a client-supplied
token, otherwise take the token the store listing holds for that part
number. -/
def resolvePart (tok : Int → String) (p : ParsedPart) : FinalPart :=
  ⟨p.PartNumber, match p.ETag with | some t => t | none => tok p.PartNumber⟩

/-- The sequence of PartNumberMarker values the paging loop feeds to
ListParts: index 0 is the initial (undefined) marker, index n+1 the
NextPartNumberMarker of the page fetched with the marker at index n. -/
def markerChain (store : Option Int → ListPage) (m : Option Int) : Nat → Option Int
  | 0 => m
  | n + 1 => (store (markerChain store m n)).NextPartNumberMarker

/-- A page at which the loop stops paging: not truncated, or no next
marker. -/
def pageStops (p : ListPage) : Prop :=
  p.IsTruncated = false ∨ p.NextPartNumberMarker = none

/-- Outcome of POST /api/sign-part: `reject msg` is a 400 response, `signed`
records the parameters of the presigned UploadPartCommand (bucket, key,
upload id, part number), the expiry passed to the URL signer, and the
response headers set before the JSON body carrying the URL. -/
inductive SignResult where
  | reject : String → SignResult
  | signed : String → String → String → Int → Nat → List (String × String) → SignResult
deriving DecidableEq

/-- Whether a sign-part outcome is a 400 rejection. -/
def SignResult.isReject : SignResult → Bool
  | .reject _ => true
  | _ => false

/-- The cache-suppression headers set by the sign-part handler (server.js
lines 539-541). -/
def noCacheHeaders : List (String × String) :=
  [("Cache-Control", "no-store, max-age=0, must-revalidate"),
    ("Pragma", "no-cache"),
    ("Expires", "0")]

/-- POST /api/sign-part (server.js lines 505-543): `partNumber` is the
request-body field after the JavaScript number conversion, with `none`
modelling an absent, undefined or null field. -/
def signPart (bucket key uploadId : String) (partNumber : Option JsNum) : SignResult :=
  if key == "" || uploadId == "" || partNumber.isNone then
    .reject ("key, uploadId and partNumber are required")
  else if invalidKey key then .reject ("Invalid key")
  else
    match partNumber with
    | some (.int n) =>
      if 0 < n then .signed bucket key uploadId n 3600 noCacheHeaders
      else .reject ("partNumber must be a positive integer")
    | some .nonInt => .reject ("partNumber must be a positive integer")
    | none => .reject ("key, uploadId and partNumber are required")

/-- A metadata value from the request body: `nullish` for null or undefined,
otherwise the result of the JavaScript string conversion. -/
inductive MetaVal where
  | nullish : MetaVal
  | str : String → MetaVal

/-- The character class kept by the metadata-key sanitizer (server.js line
437): lowercase letters, digits, and the token characters of that regex,
written here by ASCII code. -/
def metaKeyAllowedChar (c : Char) : Bool :=
  let n := c.toNat
  (decide (97 ≤ n) && decide (n ≤ 122)) || (decide (48 ≤ n) && decide (n ≤ 57)) ||
    n == 33 || n == 35 || n == 36 || n == 38 || n == 39 || n == 42 || n == 43 ||
    n == 46 || n == 94 || n == 95 || n == 96 || n == 124 || n == 126 || n == 45

/-- `normalizeMetadataKey` (server.js lines 423-443): trim and lowercase,
strip a leading amz-meta prefix, replace disallowed characters with a hyphen
(ASCII 45), and reject empty results. -/
def normalizeMetadataKey (key : String) : Option String :=
  let trimmed := strLower (strTrim key)
  if trimmed == "" then none
  else
    let withoutPrefix :=
      if strStartsWith trimmed ("x-amz-meta-") then String.mk (trimmed.toList.drop 11) else trimmed
    let sanitized :=
      String.mk (withoutPrefix.toList.map (fun c => if metaKeyAllowedChar c then c else Char.ofNat 45))
    if sanitized == "" then none else some sanitized

/-- `sanitizeMetadataValue` (server.js lines 445-457): nullish becomes the
empty string; otherwise the string is kept only when every character is
printable ASCII. -/
def sanitizeMetadataValue : MetaVal → Option String
  | .nullish => some ("")
  | .str s =>
    if s.toList.all (fun c => decide (32 ≤ c.toNat) && decide (c.toNat ≤ 126)) then some s
    else none

/-- JavaScript object property assignment on a plain object: overwrite in
place when the key exists, else append in insertion order. -/
def objSet (l : List (String × String)) (k v : String) : List (String × String) :=
  if l.any (fun p => p.1 == k) then l.map (fun p => if p.1 == k then (k, v) else p)
  else l ++ [(k, v)]

/-- The metadata-payload reduction (server.js lines 459-481), including the
final collapse of an empty payload to undefined. -/
def buildMetadataPayload (entries : List (String × MetaVal)) : Option (List (String × String)) :=
  let payload := entries.foldl (fun acc e =>
    match normalizeMetadataKey e.1 with
    | none => acc
    | some k =>
      match sanitizeMetadataValue e.2 with
      | none => acc
      | some v => objSet acc k v) []
  if payload.isEmpty then none else some payload

/-- Outcome of POST /api/create-multipart: `reject msg` is a 400 response,
`storeCreate` records the CreateMultipartUploadCommand parameters. -/
inductive CreateResult where
  | reject : String → CreateResult
  | storeCreate : String → String → Option String → Option (List (String × String)) → CreateResult
deriving DecidableEq

/-- Whether a create-multipart outcome is a 400 rejection. -/
def CreateResult.isReject : CreateResult → Bool
  | .reject _ => true
  | _ => false

/-- POST /api/create-multipart (server.js lines 408-503) up to the
CreateMultipartUploadCommand: `key = none` models a missing or non-string key,
`metadata = none` a body whose metadata is not a plain object. -/
def createMultipart (bucket : String) (key : Option String) (contentType : Option String)
    (metadata : Option (List (String × MetaVal))) : CreateResult :=
  match key with
  | none => .reject ("key is required")
  | some k =>
    if k == "" then .reject ("key is required")
    else if invalidKey k then .reject ("Invalid key")
    else .storeCreate bucket k contentType (metadata.bind buildMetadataPayload)

/-- Outcome of POST /api/abort-multipart: `reject msg` is a 400 response,
`storeAbort` records the AbortMultipartUploadCommand parameters. -/
inductive AbortResult where
  | reject : String → AbortResult
  | storeAbort : String → String → String → AbortResult
deriving DecidableEq

/-- Whether an abort-multipart outcome is a 400 rejection. -/
def AbortResult.isReject : AbortResult → Bool
  | .reject _ => true
  | _ => false

/-- POST /api/abort-multipart (server.js lines 665-684) up to the
AbortMultipartUploadCommand. -/
def abortMultipart (bucket key uploadId : String) : AbortResult :=
  if key == "" || uploadId == "" then .reject ("key and uploadId are required")
  else if invalidKey key then .reject ("Invalid key")
  else .storeAbort bucket key uploadId

/-- The domain of the JavaScript number conversion applied to an environment
string: NaN, an infinity, or a finite value modelled as a rational. -/
inductive JsNumber where
  | nan : JsNumber
  | posInf : JsNumber
  | negInf : JsNumber
  | fin : ℚ → JsNumber

/-- `parsePositiveInteger` (server.js lines 63-74): `value` is the raw
environment variable (`none` when unset or not a string) and `num` the
JavaScript number conversion of strings. Non-finite or non-positive parses
fall back; positive finite parses are floored. -/
def parsePositiveInteger (value : Option String) (num : String → JsNumber) (fallback : Int) : Int :=
  match value with
  | none => fallback
  | some s =>
    if strTrim s == "" then fallback
    else
      match num s with
      | .fin q => if q ≤ 0 then fallback else ⌊q⌋
      | _ => fallback

/-- The minimum part size of server.js line 76. -/
def MIN_PART_SIZE : Int := 5 * 1024 * 1024

/-- The default part size of server.js line 77. -/
def DEFAULT_PART_SIZE : Int := 8 * 1024 * 1024

/-- The default concurrency of server.js line 78. -/
def DEFAULT_CONCURRENCY : Int := 4

/-- The partSizeBytes field served by GET /api/upload-config (server.js
lines 80-84 and 283-285). -/
def partSizeBytes (value : Option String) (num : String → JsNumber) : Int :=
  max (parsePositiveInteger value num DEFAULT_PART_SIZE) MIN_PART_SIZE

/-- The maxConcurrency field served by GET /api/upload-config. -/
def maxConcurrency (value : Option String) (num : String → JsNumber) : Int :=
  parsePositiveInteger value num DEFAULT_CONCURRENCY

/-- A release semver triple, the shape of the storage-client package
version. -/
structure SemVer where
  major : Nat
  minor : Nat
  patch : Nat
deriving DecidableEq

/-- The semver greater-or-equal comparison restricted to release triples:
compare major, then minor, then patch. -/
def semverGte (a b : SemVer) : Bool :=
  if a.major ≠ b.major then decide (b.major < a.major)
  else if a.minor ≠ b.minor then decide (b.minor < a.minor)
  else decide (b.patch ≤ a.patch)

/-- The restricted-vendor endpoint suffix of s3/utils.js. -/
def HETZNER_ENDPOINT_SUFFIX : String := ".your-objectstorage.com"

/-- The first incompatible storage-client version of s3/utils.js. -/
def HETZNER_MIN_INCOMPATIBLE_VERSION : SemVer := ⟨3, 729, 0⟩

/-- Outcome of the startup guard: `exitProcess` is the fail-fast process
exit, `ok` carries the detected version, endpoint host and vendor flag that
the guard returns. -/
inductive GuardResult where
  | exitProcess : GuardResult
  | ok : SemVer → Option String → Bool → GuardResult
deriving DecidableEq

/-- The vendor test of s3/utils.js applied to a parsed endpoint host:
false when the host is absent, otherwise a suffix match. -/
def isHetznerHost (endpointHost : Option String) : Bool :=
  match endpointHost with
  | some h => strEndsWith h HETZNER_ENDPOINT_SUFFIX
  | none => false

/-- `ensureHetznerCompatibleSdk` (s3/utils.js): `endpointHost` is the parsed
hostname of the configured endpoint, `none` when the endpoint is unset or not
a parseable URL. -/
def ensureHetznerCompatibleSdk (endpointHost : Option String) (version : SemVer) : GuardResult :=
  let hetzner := isHetznerHost endpointHost
  if hetzner && semverGte version HETZNER_MIN_INCOMPATIBLE_VERSION then .exitProcess
  else .ok version endpointHost hetzner

/-! Helper lemmas about the sort, the set and map models, and the paging
loop. -/

theorem mem_insertPart (x a : FinalPart) (l : List FinalPart) :
    x ∈ insertPart a l ↔ x = a ∨ x ∈ l := by
  induction l with
  | nil => simp [insertPart]
  | cons b bs ih =>
    by_cases hab : a.PartNumber ≤ b.PartNumber
    · simp [insertPart, hab]
    · simp [insertPart, hab, ih]
      tauto

theorem insertPart_perm (a : FinalPart) (l : List FinalPart) :
    List.Perm (insertPart a l) (a :: l) := by
  induction l with
  | nil => exact List.Perm.refl _
  | cons b bs ih =>
    by_cases hab : a.PartNumber ≤ b.PartNumber
    · simp [insertPart, hab]
    · simp only [insertPart, if_neg hab]
      exact (List.Perm.cons b ih).trans (List.Perm.swap a b bs)

theorem sortParts_perm (l : List FinalPart) : List.Perm (sortParts l) l := by
  induction l with
  | nil => exact List.Perm.refl _
  | cons a rest ih =>
    exact (insertPart_perm a (sortParts rest)).trans (List.Perm.cons a ih)

theorem mem_sortParts (x : FinalPart) (l : List FinalPart) :
    x ∈ sortParts l ↔ x ∈ l :=
  (sortParts_perm l).mem_iff

theorem length_sortParts (l : List FinalPart) :
    (sortParts l).length = l.length :=
  (sortParts_perm l).length_eq

theorem insertPart_sorted (a : FinalPart) (l : List FinalPart)
    (h : List.Sorted partLE l) : List.Sorted partLE (insertPart a l) := by
  induction l with
  | nil => simp [insertPart]
  | cons b bs ih =>
    rw [List.sorted_cons] at h
    obtain ⟨hb, hbs⟩ := h
    by_cases hab : a.PartNumber ≤ b.PartNumber
    · simp only [insertPart, if_pos hab]
      rw [List.sorted_cons]
      refine ⟨?_, ?_⟩
      · intro x hx
        rcases List.mem_cons.mp hx with rfl | hx
        · exact hab
        · exact le_trans hab (hb x hx)
      · rw [List.sorted_cons]
        exact ⟨hb, hbs⟩
    · simp only [insertPart, if_neg hab]
      rw [List.sorted_cons]
      refine ⟨?_, ih hbs⟩
      intro x hx
      rcases (mem_insertPart x a bs).mp hx with rfl | hx
      · exact le_of_not_le hab
      · exact hb x hx

theorem sortParts_sorted (l : List FinalPart) :
    List.Sorted partLE (sortParts l) := by
  induction l with
  | nil => simp [sortParts]
  | cons a rest ih => exact insertPart_sorted a (sortParts rest) ih

theorem filterMap_eq_map_of_all_some {α β : Type} (f : α → Option β) (g : α → β)
    (l : List α) (h : ∀ x ∈ l, f x = some (g x)) : l.filterMap f = l.map g := by
  induction l with
  | nil => rfl
  | cons a rest ih =>
    rw [List.filterMap_cons, h a (List.mem_cons_self a rest)]
    rw [List.map_cons, ih (fun x hx => h x (List.mem_cons_of_mem a hx))]

theorem mem_insertUnique (m n : Int) (l : List Int) :
    m ∈ insertUnique l n ↔ m ∈ l ∨ m = n := by
  by_cases h : n ∈ l
  · simp only [insertUnique, if_pos h]
    constructor
    · exact Or.inl
    · rintro (hm | rfl)
      · exact hm
      · exact h
  · simp [insertUnique, if_neg h]

theorem mem_foldl_insertUnique (l : List Int) :
    ∀ acc n, n ∈ l.foldl insertUnique acc ↔ n ∈ acc ∨ n ∈ l := by
  induction l with
  | nil => simp
  | cons a rest ih =>
    intro acc n
    rw [List.foldl_cons, ih (insertUnique acc a) n, mem_insertUnique]
    simp
    tauto

theorem mem_toSetList (n : Int) (l : List Int) : n ∈ toSetList l ↔ n ∈ l := by
  rw [toSetList, mem_foldl_insertUnique]
  simp

theorem toSetList_ne_nil (l : List Int) (h : l ≠ []) : toSetList l ≠ [] := by
  intro hnil
  rcases List.exists_mem_of_ne_nil l h with ⟨x, hx⟩
  have := (mem_toSetList x l).mpr hx
  rw [hnil] at this
  exact List.not_mem_nil x this

theorem lkGet_isSome (lk : Lookup) (n : Int) :
    (lkGet lk n).isSome = lkHas lk n := by
  induction lk with
  | nil => rfl
  | cons p rest ih =>
    cases hp : (p.1 == n) with
    | false => simpa [lkGet, lkHas, List.find?_cons, hp] using ih
    | true => simp [lkGet, lkHas, List.find?_cons, hp]

theorem lkHas_append (lk : Lookup) (e : Int × Option String) (n : Int) :
    lkHas (lk ++ [e]) n = (lkHas lk n || e.1 == n) := by
  simp [lkHas, List.any_append]

theorem lkGet_append_some (lk : Lookup) (e : Int × Option String) (n : Int) (v : Option String)
    (h : lkGet lk n = some v) : lkGet (lk ++ [e]) n = some v := by
  induction lk with
  | nil => simp [lkGet] at h
  | cons p rest ih =>
    rw [List.cons_append]
    cases hp : (p.1 == n) with
    | true =>
      simp only [lkGet, List.find?_cons, hp] at h ⊢
      exact h
    | false =>
      simp only [lkGet, List.find?_cons, hp] at h ⊢
      exact ih h

theorem lkGet_append_self (lk : Lookup) (e : Int × Option String) (n : Int)
    (h : lkHas lk n = false) (he : (e.1 == n) = true) :
    lkGet (lk ++ [e]) n = some e.2 := by
  induction lk with
  | nil => simp [lkGet, List.find?_cons, he]
  | cons p rest ih =>
    rw [lkHas, List.any_cons] at h
    cases hp : (p.1 == n) with
    | true => rw [hp] at h; simp at h
    | false =>
      rw [hp] at h
      simp only [Bool.false_or] at h
      simp only [List.cons_append, lkGet, List.find?_cons, hp]
      exact ih h

theorem processEntry_fold_snd_mem (parts : List (Int × Option String)) :
    ∀ (st : Lookup × List Int) (n : Int),
      n ∈ (parts.foldl processEntry st).2 ↔ n ∈ st.2 ∧ ∀ e ∈ parts, n ≠ e.1 := by
  induction parts with
  | nil => intro st n; simp
  | cons e rest ih =>
    intro st n
    rw [List.foldl_cons, ih]
    have hsnd : (processEntry st e).2 = st.2.filter (fun m => m != e.1) := rfl
    rw [hsnd]
    simp only [List.mem_filter, bne_iff_ne, List.mem_cons]
    constructor
    · rintro ⟨⟨hmem, hne⟩, hrest⟩
      refine ⟨hmem, ?_⟩
      rintro x (rfl | hx)
      · exact hne
      · exact hrest x hx
    · rintro ⟨hmem, hall⟩
      refine ⟨⟨hmem, hall e (Or.inl rfl)⟩, fun x hx => hall x (Or.inr hx)⟩

theorem processEntry_fold_get_mono (parts : List (Int × Option String)) :
    ∀ (st : Lookup × List Int) (n : Int) (v : Option String),
      lkGet st.1 n = some v → lkGet (parts.foldl processEntry st).1 n = some v := by
  induction parts with
  | nil => intro st n v h; simpa using h
  | cons e rest ih =>
    intro st n v h
    rw [List.foldl_cons]
    apply ih
    show lkGet (if lkHas st.1 e.1 then st.1 else st.1 ++ [(e.1, e.2)]) n = some v
    by_cases hh : lkHas st.1 e.1
    · simpa [hh] using h
    · simp only [hh, if_false, Bool.false_eq_true, if_neg]
      exact lkGet_append_some st.1 (e.1, e.2) n v h

theorem processEntry_fold_has (parts : List (Int × Option String)) :
    ∀ (st : Lookup × List Int) (n : Int),
      lkHas (parts.foldl processEntry st).1 n =
        (lkHas st.1 n || parts.any (fun e => e.1 == n)) := by
  induction parts with
  | nil => intro st n; simp
  | cons e rest ih =>
    intro st n
    rw [List.foldl_cons, ih, List.any_cons]
    have hfst : (processEntry st e).1 = if lkHas st.1 e.1 then st.1 else st.1 ++ [(e.1, e.2)] := rfl
    rw [hfst]
    by_cases hh : lkHas st.1 e.1
    · rw [if_pos hh]
      by_cases hen : (e.1 == n) = true
      · have hn : e.1 = n := by simpa using hen
        have hsn : lkHas st.1 n = true := hn ▸ hh
        rw [hsn]
        simp
      · have hen2 : (e.1 == n) = false := by simpa using hen
        simp [hen2]
    · rw [if_neg hh, lkHas_append]
      simp [Bool.or_assoc]

theorem processEntry_fold_get_fn (parts : List (Int × Option String)) (f : Int → Option String) :
    ∀ (st : Lookup × List Int) (n : Int),
      (∀ e ∈ parts, e.2 = f e.1) → lkHas st.1 n = false →
      parts.any (fun e => e.1 == n) = true →
      lkGet (parts.foldl processEntry st).1 n = some (f n) := by
  induction parts with
  | nil => intro st n _ _ hany; simp at hany
  | cons e rest ih =>
    intro st n hf hhas hany
    rw [List.foldl_cons]
    by_cases hen : (e.1 == n) = true
    · have hn : e.1 = n := by simpa using hen
      have hh : lkHas st.1 e.1 = false := by rw [hn]; exact hhas
      apply processEntry_fold_get_mono
      show lkGet (if lkHas st.1 e.1 then st.1 else st.1 ++ [(e.1, e.2)]) n = some (f n)
      rw [hh]
      simp only [Bool.false_eq_true, if_neg, if_false]
      have := lkGet_append_self st.1 (e.1, e.2) n hhas hen
      rw [this]
      have : e.2 = f e.1 := hf e (List.mem_cons_self e rest)
      rw [this, hn]
    · have hany' : rest.any (fun p => p.1 == n) = true := by
        rw [List.any_cons] at hany
        rcases Bool.or_eq_true_iff.mp hany with h | h
        · exact absurd h hen
        · exact h
      apply ih
      · intro x hx; exact hf x (List.mem_cons_of_mem e hx)
      · show lkHas (if lkHas st.1 e.1 then st.1 else st.1 ++ [(e.1, e.2)]) n = false
        by_cases hh : lkHas st.1 e.1
        · rw [if_pos hh]; exact hhas
        · rw [if_neg hh, lkHas_append, hhas]
          simp only [Bool.false_or]
          simpa using hen
      · exact hany'

theorem listLoop_get_mono (store : Option Int → ListPage) :
    ∀ (fuel : Nat) (rem : List Int) (lk : Lookup) (m : Option Int) (lk' : Lookup)
      (rem' : List Int) (n : Int) (v : Option String),
      listLoop store fuel rem lk m = some (lk', rem') → lkGet lk n = some v →
      lkGet lk' n = some v := by
  intro fuel
  induction fuel with
  | zero => intro rem lk m lk' rem' n v h _; simp [listLoop] at h
  | succ f ih =>
    intro rem lk m lk' rem' n v h hg
    rw [listLoop] at h
    by_cases hre : rem.isEmpty
    · simp only [hre, if_true] at h
      obtain ⟨h1, h2⟩ : lk = lk' ∧ rem = rem' := by
        have := Option.some.inj h
        exact ⟨congrArg Prod.fst this, congrArg Prod.snd this⟩
      rw [← h1]
      exact hg
    · simp only [hre, Bool.false_eq_true, if_false] at h
      by_cases ht : (store m).IsTruncated
      · simp only [ht, Bool.not_true, Bool.false_eq_true, if_false] at h
        cases hm : (store m).NextPartNumberMarker with
        | none =>
          rw [hm] at h
          have h1 : lk' = _ := (congrArg Prod.fst (Option.some.inj h)).symm
          rw [h1]
          exact processEntry_fold_get_mono _ _ _ _ hg
        | some m2 =>
          rw [hm] at h
          exact ih _ _ _ _ _ _ _ h (processEntry_fold_get_mono _ _ _ _ hg)
      · have ht2 : (store m).IsTruncated = false := by simpa using ht
        simp only [ht2, Bool.not_false, if_true] at h
        have h1 : lk' = _ := (congrArg Prod.fst (Option.some.inj h)).symm
        rw [h1]
        exact processEntry_fold_get_mono _ _ _ _ hg

theorem listLoop_has_mono (store : Option Int → ListPage) (fuel : Nat) (rem : List Int)
    (lk : Lookup) (m : Option Int) (lk' : Lookup) (rem' : List Int) (n : Int)
    (h : listLoop store fuel rem lk m = some (lk', rem')) (hh : lkHas lk n = true) :
    lkHas lk' n = true := by
  have hs : (lkGet lk n).isSome = true := by rw [lkGet_isSome]; exact hh
  obtain ⟨v, hv⟩ := Option.isSome_iff_exists.mp hs
  have := listLoop_get_mono store fuel rem lk m lk' rem' n v h hv
  rw [← lkGet_isSome, this]
  rfl

theorem listLoop_rem_iff (store : Option Int → ListPage) :
    ∀ (fuel : Nat) (rem : List Int) (lk : Lookup) (m : Option Int) (lk' : Lookup)
      (rem' : List Int),
      listLoop store fuel rem lk m = some (lk', rem') →
      (∀ n ∈ rem, lkHas lk n = false) →
      ∀ n, n ∈ rem' ↔ (n ∈ rem ∧ lkHas lk' n = false) := by
  intro fuel
  induction fuel with
  | zero => intro rem lk m lk' rem' h _; simp [listLoop] at h
  | succ f ih =>
    intro rem lk m lk' rem' h hpre n
    rw [listLoop] at h
    by_cases hre : rem.isEmpty
    · simp only [hre, if_true] at h
      obtain ⟨h1, h2⟩ : lk = lk' ∧ rem = rem' := by
        have := Option.some.inj h
        exact ⟨congrArg Prod.fst this, congrArg Prod.snd this⟩
      subst h1
      subst h2
      constructor
      · intro hn
        exact ⟨hn, hpre n hn⟩
      · intro hn
        exact hn.1
    · simp only [hre, Bool.false_eq_true, if_false] at h
      have hexit : ∀ hfold : ((store m).Parts.foldl processEntry (lk, rem)) = (lk', rem'),
          (n ∈ rem' ↔ (n ∈ rem ∧ lkHas lk' n = false)) := by
        intro hfold
        have hmem : n ∈ rem' ↔ n ∈ rem ∧ ∀ e ∈ (store m).Parts, n ≠ e.1 := by
          have := processEntry_fold_snd_mem (store m).Parts (lk, rem) n
          rw [hfold] at this
          exact this
        have hhas : lkHas lk' n = (lkHas lk n || (store m).Parts.any (fun e => e.1 == n)) := by
          have := processEntry_fold_has (store m).Parts (lk, rem) n
          rw [hfold] at this
          exact this
        rw [hmem, hhas]
        constructor
        · rintro ⟨hn, hall⟩
          refine ⟨hn, ?_⟩
          rw [hpre n hn, Bool.false_or]
          rw [List.any_eq_false]
          intro e he
          simpa using Ne.symm (hall e he)
        · rintro ⟨hn, hor⟩
          refine ⟨hn, ?_⟩
          rw [hpre n hn, Bool.false_or, List.any_eq_false] at hor
          intro e he
          have := hor e he
          exact Ne.symm (by simpa using this)
      by_cases ht : (store m).IsTruncated
      · simp only [ht, Bool.not_true, Bool.false_eq_true, if_false] at h
        cases hm : (store m).NextPartNumberMarker with
        | none =>
          rw [hm] at h
          apply hexit
          have := Option.some.inj h
          exact Prod.ext (congrArg Prod.fst this) (congrArg Prod.snd this)
        | some m2 =>
          rw [hm] at h
          have hpre2 : ∀ k ∈ ((store m).Parts.foldl processEntry (lk, rem)).2,
              lkHas ((store m).Parts.foldl processEntry (lk, rem)).1 k = false := by
            intro k hk
            rw [processEntry_fold_snd_mem] at hk
            rw [processEntry_fold_has]
            rw [hpre k hk.1, Bool.false_or, List.any_eq_false]
            intro e he
            have := hk.2 e he
            simpa using Ne.symm this
          have hiter := ih _ _ _ _ _ h hpre2 n
          rw [hiter, processEntry_fold_snd_mem]
          constructor
          · rintro ⟨⟨hn, _⟩, hlk⟩
            exact ⟨hn, hlk⟩
          · rintro ⟨hn, hlk⟩
            refine ⟨⟨hn, ?_⟩, hlk⟩
            intro e he hne
            have hhase : lkHas ((store m).Parts.foldl processEntry (lk, rem)).1 n = true := by
              rw [processEntry_fold_has]
              have hany : (store m).Parts.any (fun q => q.1 == n) = true := by
                rw [List.any_eq_true]
                exact ⟨e, he, by simpa using hne.symm⟩
              rw [hany, Bool.or_true]
            have := listLoop_has_mono store f _ _ _ _ _ n h hhase
            rw [this] at hlk
            exact Bool.true_eq_false.mp hlk
      · have ht2 : (store m).IsTruncated = false := by simpa using ht
        simp only [ht2, Bool.not_false, if_true] at h
        exact hexit (Option.some.inj h)

theorem markerChain_shift (store : Option Int → ListPage) (m : Option Int) :
    ∀ n : Nat, markerChain store m (n + 1) =
      markerChain store ((store m).NextPartNumberMarker) n := by
  intro n
  induction n with
  | zero => rfl
  | succ k ih =>
    show (store (markerChain store m (k + 1))).NextPartNumberMarker =
      (store (markerChain store ((store m).NextPartNumberMarker) k)).NextPartNumberMarker
    rw [ih]

/-- C10: the reconciliation paging loop terminates whenever some page along
the marker chain is not truncated or carries no next marker, or the listing
resolves every remaining part number within the first pages; the fuel bound
n + 2 also shows the loop issues no further ListParts call once one of these
conditions is reached. -/
theorem listLoop_terminates (store : Option Int → ListPage) :
    ∀ (n : Nat) (rem : List Int) (lk : Lookup) (m : Option Int),
      (pageStops (store (markerChain store m n)) ∨
        ∀ x ∈ rem, ∃ i, i ≤ n ∧ x ∈ ((store (markerChain store m i)).Parts.map Prod.fst)) →
      (listLoop store (n + 2) rem lk m).isSome = true := by
  intro n
  induction n with
  | zero =>
    intro rem lk m h
    rw [listLoop]
    by_cases hre : rem.isEmpty
    · simp [hre]
    · simp only [hre, Bool.false_eq_true, if_false]
      cases h with
      | inl hstop =>
        by_cases ht : (store m).IsTruncated
        · have hm : (store m).NextPartNumberMarker = none := by
            cases hstop with
            | inl h0 =>
              have h0x : (store m).IsTruncated = false := h0
              rw [ht] at h0x
              exact absurd h0x (by simp)
            | inr h0 => exact h0
          simp only [ht, Bool.not_true, Bool.false_eq_true, if_false, hm]
          simp
        · have ht2 : (store m).IsTruncated = false := by simpa using ht
          simp [ht2]
      | inr hres =>
        by_cases ht : (store m).IsTruncated
        · simp only [ht, Bool.not_true, Bool.false_eq_true, if_false]
          have hempty : (((store m).Parts.foldl processEntry (lk, rem)).2) = [] := by
            rw [List.eq_nil_iff_forall_not_mem]
            intro x hx
            have hx2 := (processEntry_fold_snd_mem _ _ _).mp hx
            obtain ⟨i, hi, hmem⟩ := hres x hx2.1
            have hz : i = 0 := Nat.le_zero.mp hi
            subst hz
            obtain ⟨e, he, hex⟩ := List.mem_map.mp hmem
            exact hx2.2 e he hex.symm
          cases hm : (store m).NextPartNumberMarker with
          | none => simp
          | some m2 =>
            simp only [hempty]
            rw [listLoop]
            simp
        · have ht2 : (store m).IsTruncated = false := by simpa using ht
          simp [ht2]
  | succ k ih =>
    intro rem lk m h
    rw [listLoop]
    by_cases hre : rem.isEmpty
    · simp [hre]
    · simp only [hre, Bool.false_eq_true, if_false]
      by_cases ht : (store m).IsTruncated
      · simp only [ht, Bool.not_true, Bool.false_eq_true, if_false]
        cases hm : (store m).NextPartNumberMarker with
        | none => simp
        | some m2 =>
          have hrec := ih (((store m).Parts.foldl processEntry (lk, rem)).2)
            (((store m).Parts.foldl processEntry (lk, rem)).1) (some m2) ?_
          · simpa using hrec
          · cases h with
            | inl hstop =>
              left
              rw [markerChain_shift, hm] at hstop
              exact hstop
            | inr hres =>
              right
              intro x hx
              have hx2 := (processEntry_fold_snd_mem _ _ _).mp hx
              obtain ⟨i, hi, hmem⟩ := hres x hx2.1
              cases i with
              | zero =>
                exfalso
                obtain ⟨e, he, hex⟩ := List.mem_map.mp hmem
                exact hx2.2 e he hex.symm
              | succ j =>
                refine ⟨j, Nat.le_of_succ_le_succ hi, ?_⟩
                rw [markerChain_shift, hm] at hmem
                exact hmem
      · have ht2 : (store m).IsTruncated = false := by simpa using ht
        simp [ht2]

/-- C10 witness: a store whose first page is not truncated makes the loop
stop within the fuel bound. -/
theorem listLoop_terminates_witness :
    (listLoop (fun _ => ⟨[], false, none⟩) 2 [3] [] none).isSome = true :=
  listLoop_terminates (fun _ => ⟨[], false, none⟩) 0 [3] [] none (Or.inl (Or.inl rfl))

theorem semverGte_min_iff (v : SemVer) :
    semverGte v HETZNER_MIN_INCOMPATIBLE_VERSION = true ↔
      (3 < v.major ∨ (v.major = 3 ∧ 729 ≤ v.minor)) := by
  obtain ⟨ma, mi, pa⟩ := v
  simp only [semverGte, HETZNER_MIN_INCOMPATIBLE_VERSION]
  by_cases h1 : ma = 3
  · subst h1
    by_cases h2 : mi = 729
    · subst h2
      simp
    · simp [h2]
      omega
  · simp [h1]

/-- C6: the startup guard exits exactly when the endpoint host ends with the
restricted-vendor suffix and the client version is at least 3.729.0
(lexicographically); otherwise it returns the detected version, endpoint host
and vendor flag. -/
theorem hetzner_guard_exits_iff (endpointHost : Option String) (version : SemVer) :
    (isHetznerHost endpointHost = true ↔
      ∃ h, endpointHost = some h ∧ strEndsWith h HETZNER_ENDPOINT_SUFFIX = true) ∧
    (ensureHetznerCompatibleSdk endpointHost version = .exitProcess ↔
      (isHetznerHost endpointHost = true ∧
        (3 < version.major ∨ (version.major = 3 ∧ 729 ≤ version.minor)))) ∧
    (¬ ensureHetznerCompatibleSdk endpointHost version = .exitProcess →
      ensureHetznerCompatibleSdk endpointHost version =
        .ok version endpointHost (isHetznerHost endpointHost)) := by
  refine ⟨?_, ?_, ?_⟩
  · cases endpointHost with
    | none => simp [isHetznerHost]
    | some h => simp [isHetznerHost]
  · constructor
    · intro hexit
      rw [ensureHetznerCompatibleSdk] at hexit
      by_cases hc : (isHetznerHost endpointHost &&
          semverGte version HETZNER_MIN_INCOMPATIBLE_VERSION) = true
      · obtain ⟨hh, hv⟩ := Bool.and_eq_true_iff.mp hc
        exact ⟨hh, (semverGte_min_iff version).mp hv⟩
      · rw [if_neg hc] at hexit
        exact absurd hexit (by simp)
    · rintro ⟨hh, hv⟩
      have hb : (isHetznerHost endpointHost &&
          semverGte version HETZNER_MIN_INCOMPATIBLE_VERSION) = true := by
        rw [hh, (semverGte_min_iff version).mpr hv]
        rfl
      rw [ensureHetznerCompatibleSdk, if_pos hb]
  · intro hne
    rw [ensureHetznerCompatibleSdk] at hne ⊢
    by_cases hc : (isHetznerHost endpointHost &&
        semverGte version HETZNER_MIN_INCOMPATIBLE_VERSION) = true
    · rw [if_pos hc] at hne
      exact absurd rfl hne
    · rw [if_neg hc]

/-- C6 witness: the Hetzner host with the pinned 3.726.1 client starts
normally and the guard reports the vendor flag. -/
theorem hetzner_guard_exits_iff_witness :
    ensureHetznerCompatibleSdk (some "bucket.fsn1.your-objectstorage.com") ⟨3, 726, 1⟩ =
      .ok ⟨3, 726, 1⟩ (some "bucket.fsn1.your-objectstorage.com")
        (isHetznerHost (some "bucket.fsn1.your-objectstorage.com")) :=
  (hetzner_guard_exits_iff (some "bucket.fsn1.your-objectstorage.com") ⟨3, 726, 1⟩).2.2
    (by decide)

/-- C7: the served partSizeBytes never falls below the 5 MiB store minimum;
a positive finite parse is floored and kept when at least the minimum, raised
to the minimum when smaller, and any absent or non-positive or non-finite
value falls back to the 8 MiB default. -/
theorem uploadConfig_partSize (value : Option String) (num : String → JsNumber) :
    MIN_PART_SIZE ≤ partSizeBytes value num ∧
    (∀ s q, value = some s → ¬ strTrim s = "" → num s = .fin q → 0 < q →
      MIN_PART_SIZE ≤ ⌊q⌋ → partSizeBytes value num = ⌊q⌋) ∧
    (∀ s q, value = some s → ¬ strTrim s = "" → num s = .fin q → 0 < q →
      q < (MIN_PART_SIZE : ℚ) → partSizeBytes value num = MIN_PART_SIZE) ∧
    ((value = none ∨ ∃ s, value = some s ∧ (strTrim s = "" ∨ (∀ q, ¬ num s = .fin q) ∨
        ∃ q, num s = .fin q ∧ q ≤ 0)) → partSizeBytes value num = DEFAULT_PART_SIZE) := by
  refine ⟨le_max_right _ _, ?_, ?_, ?_⟩
  · intro s q hv hs hn hq hge
    subst hv
    rw [partSizeBytes, parsePositiveInteger]
    rw [if_neg (by simpa using hs), hn]
    show max (if q ≤ 0 then DEFAULT_PART_SIZE else ⌊q⌋) MIN_PART_SIZE = ⌊q⌋
    rw [if_neg (not_le.mpr hq)]
    exact max_eq_left hge
  · intro s q hv hs hn hq hlt
    subst hv
    rw [partSizeBytes, parsePositiveInteger]
    rw [if_neg (by simpa using hs), hn]
    show max (if q ≤ 0 then DEFAULT_PART_SIZE else ⌊q⌋) MIN_PART_SIZE = MIN_PART_SIZE
    rw [if_neg (not_le.mpr hq)]
    have hfl : ⌊q⌋ < MIN_PART_SIZE := by
      have h1 : (⌊q⌋ : ℚ) < (MIN_PART_SIZE : ℚ) := lt_of_le_of_lt (Int.floor_le q) hlt
      exact_mod_cast h1
    exact max_eq_right (le_of_lt hfl)
  · intro hcase
    have hfb : parsePositiveInteger value num DEFAULT_PART_SIZE = DEFAULT_PART_SIZE := by
      rcases hcase with rfl | ⟨s, rfl, hs⟩
      · rfl
      · rw [parsePositiveInteger]
        rcases hs with hs | hs | ⟨q, hq, hq0⟩
        · rw [if_pos (by simpa using hs)]
        · by_cases ht : strTrim s = ""
          · rw [if_pos (by simpa using ht)]
          · rw [if_neg (by simpa using ht)]
            cases hn : num s with
            | nan => rfl
            | posInf => rfl
            | negInf => rfl
            | fin q => exact absurd hn (hs q)
        · by_cases ht : strTrim s = ""
          · rw [if_pos (by simpa using ht)]
          · rw [if_neg (by simpa using ht), hq]
            show (if q ≤ 0 then DEFAULT_PART_SIZE else ⌊q⌋) = DEFAULT_PART_SIZE
            rw [if_pos hq0]
    rw [partSizeBytes, hfb]
    have : MIN_PART_SIZE ≤ DEFAULT_PART_SIZE := by decide
    exact max_eq_left this

/-- C7 witness: a large configured value is floored and kept, and the
minimum bound holds. -/
theorem uploadConfig_partSize_witness :
    MIN_PART_SIZE ≤ partSizeBytes (some "9000000") (fun _ => JsNumber.fin 9000000) ∧
    partSizeBytes (some "9000000") (fun _ => JsNumber.fin 9000000) = ⌊(9000000 : ℚ)⌋ :=
  ⟨(uploadConfig_partSize (some "9000000") (fun _ => JsNumber.fin 9000000)).1,
    (uploadConfig_partSize (some "9000000") (fun _ => JsNumber.fin 9000000)).2.1
      "9000000" 9000000 rfl (by decide) rfl (by norm_num) (by decide)⟩

/-- C8: a valid sign-part request yields a presigned UploadPartCommand with
an expiry of exactly 3600 seconds, and the response carries the three
no-cache headers alongside the JSON URL body. -/
theorem signPart_signed_url (bucket key uploadId : String) (n : Int)
    (hkey : ¬ key = "") (hvalid : invalidKey key = false) (hup : ¬ uploadId = "")
    (hn : 0 < n) :
    signPart bucket key uploadId (some (JsNum.int n)) =
      .signed bucket key uploadId n 3600 noCacheHeaders ∧
    noCacheHeaders = [("Cache-Control", "no-store, max-age=0, must-revalidate"),
      ("Pragma", "no-cache"), ("Expires", "0")] := by
  refine ⟨?_, rfl⟩
  rw [signPart]
  rw [if_neg (by simp [hkey, hup])]
  rw [if_neg (by simp [hvalid])]
  rw [if_pos hn]

/-- C8 witness: a concrete valid request is signed with the 3600 second
expiry and the no-cache headers. -/
theorem signPart_signed_url_witness :
    signPart "bkt" "videos/a.mp4" "upl" (some (JsNum.int 2)) =
      .signed "bkt" "videos/a.mp4" "upl" 2 3600 noCacheHeaders ∧
    noCacheHeaders = [("Cache-Control", "no-store, max-age=0, must-revalidate"),
      ("Pragma", "no-cache"), ("Expires", "0")] :=
  signPart_signed_url "bkt" "videos/a.mp4" "upl" 2 (by decide) (by decide) (by decide)
    (by decide)

/-- C9: an ETag field that is absent, not a string, or whitespace-only is
classified as a missing token (and its part number enters the missing set to
be resolved from the store listing); a string token is trimmed; the
PartNumber and partNumber spellings and bare part numbers are all accepted. -/
theorem parsePart_etag_classification :
    (∀ k : Int, 0 < k → parsePart (.bare (.int k)) = some ⟨k, none⟩) ∧
    (∀ (k : Int) (pnl : Option JsNum) (et etl : JsField), 0 < k →
      (rawEtagOf et etl = .absent ∨ rawEtagOf et etl = .nonString) →
      parsePart (.obj (some (.int k)) pnl et etl) = some ⟨k, none⟩) ∧
    (∀ (k : Int) (pnl : Option JsNum) (et etl : JsField) (s : String), 0 < k →
      rawEtagOf et etl = .str s → strTrim s = "" →
      parsePart (.obj (some (.int k)) pnl et etl) = some ⟨k, none⟩) ∧
    (∀ (k : Int) (pnl : Option JsNum) (et etl : JsField) (s : String), 0 < k →
      rawEtagOf et etl = .str s → ¬ strTrim s = "" →
      parsePart (.obj (some (.int k)) pnl et etl) = some ⟨k, some (strTrim s)⟩) ∧
    (∀ (v : JsNum) (et etl : JsField),
      parsePart (.obj none (some v) et etl) = parsePart (.obj (some v) none et etl)) ∧
    (∀ (l : List ParsedPart) (p : ParsedPart), p ∈ l → p.ETag = none →
      p.PartNumber ∈ missingPartNumbers l) := by
  refine ⟨?_, ?_, ?_, ?_, ?_, ?_⟩
  · intro k hk
    simp [parsePart, hk]
  · intro k pnl et etl hk hraw
    rcases hraw with hraw | hraw <;> simp [parsePart, hk, normalizeEtag, hraw]
  · intro k pnl et etl s hk hraw hs
    simp [parsePart, hk, normalizeEtag, hraw, hs]
  · intro k pnl et etl s hk hraw hs
    simp [parsePart, hk, normalizeEtag, hraw, hs]
  · intro v et etl
    rfl
  · intro l p hp he
    rw [missingPartNumbers]
    rw [List.mem_map]
    refine ⟨p, ?_, rfl⟩
    rw [List.mem_filter]
    exact ⟨hp, by simp [he]⟩

/-- C9 witness: bare, non-string, whitespace-only and trimmed cases at
concrete inputs, and a missing-token part number entering the missing set. -/
theorem parsePart_etag_classification_witness :
    parsePart (.bare (.int 2)) = some ⟨2, none⟩ ∧
    parsePart (.obj (some (.int 3)) none .nonString .absent) = some ⟨3, none⟩ ∧
    parsePart (.obj (some (.int 4)) none (.str "   ") .absent) = some ⟨4, none⟩ ∧
    parsePart (.obj (some (.int 5)) none .absent (.str " t ")) = some ⟨5, some (strTrim " t ")⟩ ∧
    (5 : Int) ∈ missingPartNumbers [⟨5, none⟩] :=
  ⟨parsePart_etag_classification.1 2 (by decide),
    parsePart_etag_classification.2.1 3 none .nonString .absent (by decide) (Or.inr rfl),
    parsePart_etag_classification.2.2.1 4 none (.str "   ") .absent "   " (by decide) rfl
      (by decide),
    parsePart_etag_classification.2.2.2.1 5 none .absent (.str " t ") " t " (by decide) rfl
      (by decide),
    parsePart_etag_classification.2.2.2.2.2 [⟨5, none⟩] ⟨5, none⟩ (by simp) rfl⟩

/-- C4 counterexample: a finalize request repeating part number 1 is not
rejected by the server; the duplicate-bearing list is submitted to the
store. -/
theorem completeMultipart_duplicate_submitted :
    completeMultipart (fun _ => ⟨[], false, none⟩) 1 "b" "k" "u"
      (some [RawPart.obj (some (JsNum.int 1)) none (JsField.str "a") JsField.absent,
        RawPart.obj (some (JsNum.int 1)) none (JsField.str "b") JsField.absent]) =
      CompleteResult.finalize "b" "k" "u" [⟨1, "a"⟩, ⟨1, "b"⟩] ∧
    (completeMultipart (fun _ => ⟨[], false, none⟩) 1 "b" "k" "u"
      (some [RawPart.obj (some (JsNum.int 1)) none (JsField.str "a") JsField.absent,
        RawPart.obj (some (JsNum.int 1)) none (JsField.str "b") JsField.absent])).isReject =
      false :=
  ⟨by decide, by decide⟩

/-- C4 amended: every parts list the handler submits to
CompleteMultipartUpload is sorted by non-decreasing part number; the handler
performs no strict-increase validation, so duplicated part numbers are
submitted rather than rejected. -/
theorem finalize_parts_sorted (store : Option Int → ListPage) (fuel : Nat)
    (bucket key uploadId : String) (parts : Option (List RawPart))
    (b k u : String) (l : List FinalPart)
    (h : completeMultipart store fuel bucket key uploadId parts = .finalize b k u l) :
    List.Sorted partLE l := by
  rw [completeMultipart.eq_def] at h
  split at h
  · simp at h
  · split at h
    · simp at h
    · split at h
      · simp at h
      · dsimp only at h
        split at h
        · simp at h
        · split at h
          · simp at h
          · split at h
            · simp at h
            · split at h
              · simp at h
              · rw [CompleteResult.finalize.injEq] at h
                obtain ⟨-, -, -, hl⟩ := h
                rw [← hl]
                exact sortParts_sorted _

/-- C4 witness: the duplicate-bearing submitted list of the counterexample
input is indeed sorted non-decreasingly. -/
theorem finalize_parts_sorted_witness :
    List.Sorted partLE [(⟨1, "a"⟩ : FinalPart), ⟨1, "b"⟩] :=
  finalize_parts_sorted (fun _ => ⟨[], false, none⟩) 1 "b" "k" "u"
    (some [RawPart.obj (some (JsNum.int 1)) none (JsField.str "a") JsField.absent,
      RawPart.obj (some (JsNum.int 1)) none (JsField.str "b") JsField.absent])
    "b" "k" "u" [⟨1, "a"⟩, ⟨1, "b"⟩] (by decide)

/-- C5 counterexample: a parts array containing an entry whose part number 0
is not a positive integer is not rejected; the invalid entry is silently
dropped and the remaining entry is submitted to the store. -/
theorem completeMultipart_invalid_entry_dropped :
    completeMultipart (fun _ => ⟨[], false, none⟩) 1 "b" "k" "u"
      (some [RawPart.obj (some (JsNum.int 0)) none JsField.absent JsField.absent,
        RawPart.obj (some (JsNum.int 1)) none (JsField.str "e") JsField.absent]) =
      CompleteResult.finalize "b" "k" "u" [⟨1, "e"⟩] ∧
    (completeMultipart (fun _ => ⟨[], false, none⟩) 1 "b" "k" "u"
      (some [RawPart.obj (some (JsNum.int 0)) none JsField.absent JsField.absent,
        RawPart.obj (some (JsNum.int 1)) none (JsField.str "e") JsField.absent])).isReject =
      false :=
  ⟨by decide, by decide⟩

/-- C5 amended: the request is rejected with a 400 before any store call
exactly in the case that no entry of the parts array carries a valid positive
integer part number; entries with invalid part numbers are otherwise silently
dropped. -/
theorem completeMultipart_all_invalid_rejected (store : Option Int → ListPage) (fuel : Nat)
    (bucket key uploadId : String) (ps : List RawPart)
    (hkey : ¬ key = "") (hup : ¬ uploadId = "") (hvalid : invalidKey key = false)
    (hall : ∀ p ∈ ps, parsePart p = none) :
    completeMultipart store fuel bucket key uploadId (some ps) =
      .reject ("parts array must include valid PartNumber values") := by
  have hempty : ps.filterMap parsePart = [] := by
    rw [List.filterMap_eq_nil_iff]
    exact hall
  rw [completeMultipart]
  rw [if_neg (by simp [hkey, hup])]
  rw [if_neg (by simp [hvalid])]
  simp only [hempty, List.isEmpty_nil, if_true]

/-- C5 witness: a parts array whose only entry has part number 0 is rejected
with the validation message, with no store interaction. -/
theorem completeMultipart_all_invalid_rejected_witness :
    completeMultipart (fun _ => ⟨[], false, none⟩) 1 "b" "k" "u"
      (some [RawPart.obj (some (JsNum.int 0)) none JsField.absent JsField.absent]) =
      .reject ("parts array must include valid PartNumber values") :=
  completeMultipart_all_invalid_rejected (fun _ => ⟨[], false, none⟩) 1 "b" "k" "u"
    [RawPart.obj (some (JsNum.int 0)) none JsField.absent JsField.absent]
    (by decide) (by decide) (by decide) (by decide)

theorem unresolvedMessage_ne_invalid (rem : List Int) :
    ¬ unresolvedMessage rem = "Invalid key" := by
  intro h
  have hlen := congrArg String.length h
  rw [unresolvedMessage, String.length_append] at hlen
  have h1 : ("Unable to resolve ETag for parts: ").length = 34 := by decide
  have h2 : ("Invalid key").length = 11 := by decide
  rw [h1, h2] at hlen
  omega

/-- C3: a key beginning with a slash or containing a traversal substring is
rejected with a 400 by all four multipart endpoints before any store call;
conversely a key passing this check is never rejected by the key
validation. -/
theorem multipart_key_validation (bucket key uploadId : String) (contentType : Option String)
    (metadata : Option (List (String × MetaVal))) (partNumber : Option JsNum)
    (store : Option Int → ListPage) (fuel : Nat) (parts : Option (List RawPart)) :
    (invalidKey key = true →
      ((createMultipart bucket (some key) contentType metadata).isReject = true ∧
        (signPart bucket key uploadId partNumber).isReject = true ∧
        (completeMultipart store fuel bucket key uploadId parts).isReject = true ∧
        (abortMultipart bucket key uploadId).isReject = true)) ∧
    (invalidKey key = false →
      (¬ createMultipart bucket (some key) contentType metadata = .reject ("Invalid key") ∧
        ¬ signPart bucket key uploadId partNumber = .reject ("Invalid key") ∧
        ¬ completeMultipart store fuel bucket key uploadId parts = .reject ("Invalid key") ∧
        ¬ abortMultipart bucket key uploadId = .reject ("Invalid key"))) := by
  constructor
  · intro hbad
    have hkey : ¬ key = "" := by
      intro hk
      rw [hk] at hbad
      exact absurd hbad (by decide)
    refine ⟨?_, ?_, ?_, ?_⟩
    · rw [createMultipart]
      rw [if_neg (by simpa using hkey), if_pos hbad]
      rfl
    · rw [signPart.eq_def]
      by_cases hc : (key == "" || uploadId == "" || partNumber.isNone) = true
      · rw [if_pos hc]
        rfl
      · rw [if_neg hc, if_pos hbad]
        rfl
    · rw [completeMultipart.eq_def]
      cases parts with
      | none => rfl
      | some ps =>
        dsimp only
        by_cases hc : (key == "" || uploadId == "") = true
        · rw [if_pos hc]
          rfl
        · rw [if_neg hc, if_pos hbad]
          rfl
    · rw [abortMultipart]
      by_cases hc : (key == "" || uploadId == "") = true
      · rw [if_pos hc]
        rfl
      · rw [if_neg hc, if_pos hbad]
        rfl
  · intro hgood
    refine ⟨?_, ?_, ?_, ?_⟩
    · rw [createMultipart]
      by_cases hk : (key == "") = true
      · rw [if_pos hk]
        intro hcon
        rw [CreateResult.reject.injEq] at hcon
        exact absurd hcon (by decide)
      · rw [if_neg hk, if_neg (by simp [hgood])]
        exact fun hcon => CreateResult.noConfusion hcon
    · rw [signPart.eq_def]
      by_cases hc : (key == "" || uploadId == "" || partNumber.isNone) = true
      · rw [if_pos hc]
        intro hcon
        rw [SignResult.reject.injEq] at hcon
        exact absurd hcon (by decide)
      · rw [if_neg hc, if_neg (by simp [hgood])]
        cases partNumber with
        | none => exact absurd (by simp) hc
        | some pn =>
          cases pn with
          | nonInt =>
            intro hcon
            rw [SignResult.reject.injEq] at hcon
            exact absurd hcon (by decide)
          | int n =>
            dsimp only
            by_cases hn : 0 < n
            · rw [if_pos hn]
              exact fun hcon => SignResult.noConfusion hcon
            · rw [if_neg hn]
              intro hcon
              rw [SignResult.reject.injEq] at hcon
              exact absurd hcon (by decide)
    · rw [completeMultipart.eq_def]
      cases parts with
      | none =>
        intro hcon
        rw [CompleteResult.reject.injEq] at hcon
        exact absurd hcon (by decide)
      | some ps =>
        dsimp only
        by_cases hc : (key == "" || uploadId == "") = true
        · rw [if_pos hc]
          intro hcon
          rw [CompleteResult.reject.injEq] at hcon
          exact absurd hcon (by decide)
        · rw [if_neg hc, if_neg (by simp [hgood])]
          split
          · intro hcon
            rw [CompleteResult.reject.injEq] at hcon
            exact absurd hcon (by decide)
          · split
            · exact fun hcon => CompleteResult.noConfusion hcon
            · split
              · intro hcon
                rw [CompleteResult.reject.injEq] at hcon
                exact unresolvedMessage_ne_invalid _ hcon
              · split
                · intro hcon
                  rw [CompleteResult.reject.injEq] at hcon
                  exact absurd hcon (by decide)
                · exact fun hcon => CompleteResult.noConfusion hcon
    · rw [abortMultipart]
      by_cases hc : (key == "" || uploadId == "") = true
      · rw [if_pos hc]
        intro hcon
        rw [AbortResult.reject.injEq] at hcon
        exact absurd hcon (by decide)
      · rw [if_neg hc, if_neg (by simp [hgood])]
        exact fun hcon => AbortResult.noConfusion hcon

/-- C3 witness: a traversal key is rejected by all four endpoints, and a
clean key is never rejected by the key validation. -/
theorem multipart_key_validation_witness :
    ((createMultipart "b" (some "../etc/passwd") none none).isReject = true ∧
      (signPart "b" "../etc/passwd" "u" (some (JsNum.int 1))).isReject = true ∧
      (completeMultipart (fun _ => ⟨[], false, none⟩) 1 "b" "../etc/passwd" "u"
        (some [])).isReject = true ∧
      (abortMultipart "b" "../etc/passwd" "u").isReject = true) ∧
    (¬ createMultipart "b" (some "videos/a.mp4") none none = .reject ("Invalid key") ∧
      ¬ signPart "b" "videos/a.mp4" "u" (some (JsNum.int 1)) = .reject ("Invalid key") ∧
      ¬ completeMultipart (fun _ => ⟨[], false, none⟩) 1 "b" "videos/a.mp4" "u"
        (some []) = .reject ("Invalid key") ∧
      ¬ abortMultipart "b" "videos/a.mp4" "u" = .reject ("Invalid key")) :=
  ⟨(multipart_key_validation "b" "../etc/passwd" "u" none none (some (JsNum.int 1))
      (fun _ => ⟨[], false, none⟩) 1 (some [])).1 (by decide),
    (multipart_key_validation "b" "videos/a.mp4" "u" none none (some (JsNum.int 1))
      (fun _ => ⟨[], false, none⟩) 1 (some [])).2 (by decide)⟩

/-- C2: if the paging loop exhausts the listing and part numbers remain
unresolved, the handler responds 400 with the message naming exactly the
unresolved part numbers (the requested missing numbers never seen in a
visited listing page), and no CompleteMultipartUpload is issued, leaving the
session state at the store untouched. -/
theorem completeMultipart_unresolved_rejects (store : Option Int → ListPage) (fuel : Nat)
    (bucket key uploadId : String) (rawParts : List RawPart) (lk : Lookup) (rem : List Int)
    (hkey : ¬ key = "") (hup : ¬ uploadId = "") (hvalid : invalidKey key = false)
    (hparsed : ¬ rawParts.filterMap parsePart = [])
    (hmissing : ¬ missingPartNumbers (rawParts.filterMap parsePart) = [])
    (hloop : listLoop store fuel
      (toSetList (missingPartNumbers (rawParts.filterMap parsePart))) [] none =
      some (lk, rem))
    (hrem : ¬ rem = []) :
    completeMultipart store fuel bucket key uploadId (some rawParts) =
      .reject (unresolvedMessage rem) ∧
    (∀ n, n ∈ rem ↔
      (n ∈ missingPartNumbers (rawParts.filterMap parsePart) ∧ lkHas lk n = false)) ∧
    (∀ b k u l, ¬ completeMultipart store fuel bucket key uploadId (some rawParts) =
      .finalize b k u l) := by
  have hmain : completeMultipart store fuel bucket key uploadId (some rawParts) =
      .reject (unresolvedMessage rem) := by
    rw [completeMultipart]
    rw [if_neg (by simp [hkey, hup])]
    rw [if_neg (by simp [hvalid])]
    dsimp only
    rw [if_neg (by simp [List.isEmpty_iff, hparsed])]
    rw [if_neg (by simp [List.isEmpty_iff, hmissing])]
    rw [hloop]
    dsimp only
    rw [if_pos (by simp [List.isEmpty_iff, hrem])]
  refine ⟨hmain, ?_, ?_⟩
  · intro n
    have hiff := listLoop_rem_iff store fuel
      (toSetList (missingPartNumbers (rawParts.filterMap parsePart))) [] none lk rem hloop
      (fun k _ => rfl) n
    rw [hiff, mem_toSetList]
  · intro b k u l hcon
    rw [hmain] at hcon
    exact CompleteResult.noConfusion hcon

/-- C2 witness: a request for part 3 with no client token against an empty
listing is rejected with the message naming part 3, and nothing is
finalized. -/
theorem completeMultipart_unresolved_rejects_witness :
    completeMultipart (fun _ => ⟨[], false, none⟩) 2 "b" "k" "u"
      (some [RawPart.obj (some (JsNum.int 3)) none JsField.absent JsField.absent]) =
      .reject (unresolvedMessage [3]) ∧
    (∀ n, n ∈ ([3] : List Int) ↔
      (n ∈ missingPartNumbers ([RawPart.obj (some (JsNum.int 3)) none JsField.absent
        JsField.absent].filterMap parsePart) ∧ lkHas [] n = false)) ∧
    (∀ b k u l, ¬ completeMultipart (fun _ => ⟨[], false, none⟩) 2 "b" "k" "u"
      (some [RawPart.obj (some (JsNum.int 3)) none JsField.absent JsField.absent]) =
      .finalize b k u l) :=
  completeMultipart_unresolved_rejects (fun _ => ⟨[], false, none⟩) 2 "b" "k" "u"
    [RawPart.obj (some (JsNum.int 3)) none JsField.absent JsField.absent] [] [3]
    (by decide) (by decide) (by decide) (by decide) (by decide) (by decide) (by decide)

theorem normalizeEtag_ne_empty (r : JsField) (t : String)
    (h : normalizeEtag r = some t) : ¬ t = "" := by
  intro hte
  cases r with
  | absent => simp [normalizeEtag] at h
  | nonString => simp [normalizeEtag] at h
  | str s =>
    by_cases hc : strTrim s = ""
    · simp [normalizeEtag, hc] at h
    · simp [normalizeEtag, hc] at h
      exact hc (by rw [h, hte])

theorem ifPos_parsed_etag (k : Int) (e : Option String) (q : ParsedPart)
    (h : (if 0 < k then some (⟨k, e⟩ : ParsedPart) else none) = some q) : q.ETag = e := by
  by_cases hk : 0 < k
  · rw [if_pos hk] at h
    rw [← Option.some.inj h]
  · rw [if_neg hk] at h
    exact Option.noConfusion h

theorem parsePart_some_etag_ne_empty (raw : RawPart) (q : ParsedPart)
    (h : parsePart raw = some q) : ∀ t, q.ETag = some t → ¬ t = "" := by
  intro t ht
  cases raw with
  | bare n =>
    cases n with
    | nonInt => exact Option.noConfusion h
    | int k =>
      have hq : q.ETag = none := ifPos_parsed_etag k none q h
      rw [hq] at ht
      exact Option.noConfusion ht
  | obj pn pnl et etl =>
    have hq : q.ETag = normalizeEtag (rawEtagOf et etl) := by
      rcases pn with _ | v
      · rcases pnl with _ | w
        · exact Option.noConfusion h
        · cases w with
          | nonInt => exact Option.noConfusion h
          | int k => exact ifPos_parsed_etag k _ q h
      · cases v with
        | nonInt => exact Option.noConfusion h
        | int k => exact ifPos_parsed_etag k _ q h
    rw [hq] at ht
    exact normalizeEtag_ne_empty _ _ ht

theorem mem_missingPartNumbers (l : List ParsedPart) (p : ParsedPart)
    (hp : p ∈ l) (he : p.ETag = none) : p.PartNumber ∈ missingPartNumbers l := by
  rw [missingPartNumbers, List.mem_map]
  refine ⟨p, ?_, rfl⟩
  rw [List.mem_filter]
  exact ⟨hp, by simp [he]⟩

/-- C1: when every entry of the request parses, the store listing holds a
non-empty token for exactly the part numbers whose entries omitted one, the
handler issues a single finalize whose parts list covers exactly the
requested part numbers, keeps the client-supplied tokens, fills the omitted
ones from the listing, and is sorted ascending by part number. -/
theorem completeMultipart_reconciles_and_sorts (store : Option Int → ListPage) (fuel : Nat)
    (bucket key uploadId : String) (rawParts : List RawPart) (tok : Int → String)
    (hkey : ¬ key = "") (hup : ¬ uploadId = "") (hvalid : invalidKey key = false)
    (hne : ¬ rawParts = []) (hfuel : 1 ≤ fuel)
    (hall : ∀ p ∈ rawParts, (parsePart p).isSome = true)
    (hstore : store none = ⟨(missingPartNumbers (rawParts.filterMap parsePart)).map
      (fun n => (n, some (tok n))), false, none⟩)
    (htok : ∀ n ∈ missingPartNumbers (rawParts.filterMap parsePart), ¬ tok n = "") :
    ∃ L, completeMultipart store fuel bucket key uploadId (some rawParts) =
        .finalize bucket key uploadId L ∧
      List.Sorted partLE L ∧
      List.Perm (L.map FinalPart.PartNumber)
        ((rawParts.filterMap parsePart).map ParsedPart.PartNumber) ∧
      (∀ p ∈ rawParts.filterMap parsePart, ∀ t, p.ETag = some t →
        (⟨p.PartNumber, t⟩ : FinalPart) ∈ L) ∧
      (∀ p ∈ rawParts.filterMap parsePart, p.ETag = none →
        (⟨p.PartNumber, tok p.PartNumber⟩ : FinalPart) ∈ L) ∧
      (∀ e ∈ L, ¬ e.ETag = "") := by
  have hparsednil : ¬ rawParts.filterMap parsePart = [] := by
    cases rawParts with
    | nil => exact absurd rfl hne
    | cons r rest =>
      intro hcon
      have h1 := hall r (List.mem_cons_self r rest)
      obtain ⟨q, hq⟩ := Option.isSome_iff_exists.mp h1
      rw [List.filterMap_cons, hq] at hcon
      exact List.noConfusion hcon
  have hPt : ∀ p ∈ rawParts.filterMap parsePart, ∀ t, p.ETag = some t → ¬ t = "" := by
    intro p hp t ht
    obtain ⟨a, ha, hpa⟩ := List.mem_filterMap.mp hp
    exact parsePart_some_etag_ne_empty a p hpa t ht
  have hnormAll : ∀ lkF : Lookup,
      (∀ n ∈ missingPartNumbers (rawParts.filterMap parsePart),
        lkGet lkF n = some (some (tok n))) →
      (rawParts.filterMap parsePart).filterMap (normalizeOne lkF) =
        (rawParts.filterMap parsePart).map (resolvePart tok) := by
    intro lkF hget
    apply filterMap_eq_map_of_all_some
    intro p hp
    cases hpe : p.ETag with
    | some t =>
      have htne := hPt p hp t hpe
      have hj : jsOr p.ETag ((lkGet lkF p.PartNumber).getD none) = some t := by
        rw [hpe, jsOr, if_pos (by simp [strTruthy, htne])]
      rw [normalizeOne, hj]
      dsimp only
      rw [if_neg (by simpa using htne)]
      simp [resolvePart, hpe]
    | none =>
      have hmem : p.PartNumber ∈ missingPartNumbers (rawParts.filterMap parsePart) :=
        mem_missingPartNumbers _ p hp hpe
      have hg := hget p.PartNumber hmem
      have htokne := htok p.PartNumber hmem
      have hj : jsOr p.ETag ((lkGet lkF p.PartNumber).getD none) =
          some (tok p.PartNumber) := by
        rw [hpe, hg]
        rfl
      rw [normalizeOne, hj]
      dsimp only
      rw [if_neg (by simpa using htokne)]
      simp [resolvePart, hpe]
  have hlenOK : ¬ ((sortParts ((rawParts.filterMap parsePart).map (resolvePart tok))).length !=
      (rawParts.filterMap parsePart).length) = true := by
    have hlen : (sortParts ((rawParts.filterMap parsePart).map (resolvePart tok))).length =
        (rawParts.filterMap parsePart).length := by
      rw [length_sortParts, List.length_map]
    simp [hlen]
  have hmain : completeMultipart store fuel bucket key uploadId (some rawParts) =
      .finalize bucket key uploadId
        (sortParts ((rawParts.filterMap parsePart).map (resolvePart tok))) := by
    by_cases hm : missingPartNumbers (rawParts.filterMap parsePart) = []
    · have hget0 : ∀ n ∈ missingPartNumbers (rawParts.filterMap parsePart),
          lkGet ([] : Lookup) n = some (some (tok n)) := by
        rw [hm]
        intro n hn
        exact absurd hn (List.not_mem_nil n)
      rw [completeMultipart]
      rw [if_neg (by simp [hkey, hup])]
      rw [if_neg (by simp [hvalid])]
      dsimp only
      rw [if_neg (by simp [List.isEmpty_iff, hparsednil])]
      rw [if_pos (by simp [List.isEmpty_iff, hm])]
      dsimp only
      rw [if_neg (by simp)]
      rw [hnormAll [] hget0]
      rw [if_neg hlenOK]
    · obtain ⟨f, rfl⟩ : ∃ f, fuel = f + 1 := ⟨fuel - 1, by omega⟩
      have hfPe : ∀ e ∈ (missingPartNumbers (rawParts.filterMap parsePart)).map
          (fun n => (n, some (tok n))), e.2 = (fun k => some (tok k)) e.1 := by
        intro e he
        obtain ⟨n, hn, rfl⟩ := List.mem_map.mp he
        rfl
      have hloopeq : listLoop store (f + 1)
          (toSetList (missingPartNumbers (rawParts.filterMap parsePart))) [] none =
          some (((missingPartNumbers (rawParts.filterMap parsePart)).map
            (fun n => (n, some (tok n)))).foldl processEntry
            ([], toSetList (missingPartNumbers (rawParts.filterMap parsePart)))) := by
        rw [listLoop]
        dsimp only
        rw [if_neg (by simp [List.isEmpty_iff]; exact toSetList_ne_nil _ hm)]
        rw [hstore]
        rfl
      have hsnd : (((missingPartNumbers (rawParts.filterMap parsePart)).map
          (fun n => (n, some (tok n)))).foldl processEntry
          ([], toSetList (missingPartNumbers (rawParts.filterMap parsePart)))).2 = [] := by
        rw [List.eq_nil_iff_forall_not_mem]
        intro x hx
        have hx2 := (processEntry_fold_snd_mem _ _ _).mp hx
        have hxm : x ∈ missingPartNumbers (rawParts.filterMap parsePart) :=
          (mem_toSetList x _).mp hx2.1
        have hin : ((x, some (tok x)) : Int × Option String) ∈
            (missingPartNumbers (rawParts.filterMap parsePart)).map
              (fun n => (n, some (tok n))) :=
          List.mem_map.mpr ⟨x, hxm, rfl⟩
        exact hx2.2 (x, some (tok x)) hin rfl
      have hgetP : ∀ n ∈ missingPartNumbers (rawParts.filterMap parsePart),
          lkGet (((missingPartNumbers (rawParts.filterMap parsePart)).map
            (fun n => (n, some (tok n)))).foldl processEntry
            ([], toSetList (missingPartNumbers (rawParts.filterMap parsePart)))).1 n =
          some (some (tok n)) := by
        intro n hn
        have hany : ((missingPartNumbers (rawParts.filterMap parsePart)).map
            (fun k => (k, some (tok k)))).any (fun e => e.1 == n) = true := by
          rw [List.any_eq_true]
          exact ⟨(n, some (tok n)), List.mem_map.mpr ⟨n, hn, rfl⟩, by simp⟩
        exact processEntry_fold_get_fn _ (fun k => some (tok k)) _ n hfPe rfl hany
      rw [completeMultipart]
      rw [if_neg (by simp [hkey, hup])]
      rw [if_neg (by simp [hvalid])]
      dsimp only
      rw [if_neg (by simp [List.isEmpty_iff, hparsednil])]
      rw [if_neg (by simp [List.isEmpty_iff, hm])]
      rw [hloopeq]
      dsimp only
      rw [if_neg (by simp [hsnd])]
      rw [hnormAll _ hgetP]
      rw [if_neg hlenOK]
  refine ⟨sortParts ((rawParts.filterMap parsePart).map (resolvePart tok)),
    hmain, sortParts_sorted _, ?_, ?_, ?_, ?_⟩
  · have hp1 := (sortParts_perm ((rawParts.filterMap parsePart).map
      (resolvePart tok))).map FinalPart.PartNumber
    rw [List.map_map] at hp1
    have he : (FinalPart.PartNumber ∘ resolvePart tok) = ParsedPart.PartNumber :=
      funext (fun p => rfl)
    rw [he] at hp1
    exact hp1
  · intro p hp t ht
    rw [mem_sortParts, List.mem_map]
    exact ⟨p, hp, by simp [resolvePart, ht]⟩
  · intro p hp hpe
    rw [mem_sortParts, List.mem_map]
    exact ⟨p, hp, by simp [resolvePart, hpe]⟩
  · intro e he
    rw [mem_sortParts] at he
    obtain ⟨p, hp, rfl⟩ := List.mem_map.mp he
    cases hpe : p.ETag with
    | some t =>
      have := hPt p hp t hpe
      simpa [resolvePart, hpe] using this
    | none =>
      have hmem := mem_missingPartNumbers _ p hp hpe
      have := htok p.PartNumber hmem
      simpa [resolvePart, hpe] using this

/-- C1 witness: the resume scenario — part 1 token lost locally but present
in the listing, part 2 token supplied by the client — finalizes with both
tokens present, in ascending part order. -/
theorem completeMultipart_reconciles_and_sorts_witness :
    ∃ L, completeMultipart (fun _ => ⟨[(1, some "etag-1")], false, none⟩) 2 "b"
        "videos/a.mp4" "u"
        (some [RawPart.obj none (some (JsNum.int 1)) JsField.absent JsField.absent,
          RawPart.obj none (some (JsNum.int 2)) JsField.absent (JsField.str "etag-2")]) =
        .finalize "b" "videos/a.mp4" "u" L ∧
      List.Sorted partLE L ∧
      List.Perm (L.map FinalPart.PartNumber)
        (([RawPart.obj none (some (JsNum.int 1)) JsField.absent JsField.absent,
          RawPart.obj none (some (JsNum.int 2)) JsField.absent
            (JsField.str "etag-2")].filterMap parsePart).map ParsedPart.PartNumber) ∧
      (∀ p ∈ [RawPart.obj none (some (JsNum.int 1)) JsField.absent JsField.absent,
          RawPart.obj none (some (JsNum.int 2)) JsField.absent
            (JsField.str "etag-2")].filterMap parsePart, ∀ t, p.ETag = some t →
        (⟨p.PartNumber, t⟩ : FinalPart) ∈ L) ∧
      (∀ p ∈ [RawPart.obj none (some (JsNum.int 1)) JsField.absent JsField.absent,
          RawPart.obj none (some (JsNum.int 2)) JsField.absent
            (JsField.str "etag-2")].filterMap parsePart, p.ETag = none →
        (⟨p.PartNumber, "etag-1"⟩ : FinalPart) ∈ L) ∧
      (∀ e ∈ L, ¬ e.ETag = "") :=
  completeMultipart_reconciles_and_sorts (fun _ => ⟨[(1, some "etag-1")], false, none⟩) 2
    "b" "videos/a.mp4" "u"
    [RawPart.obj none (some (JsNum.int 1)) JsField.absent JsField.absent,
      RawPart.obj none (some (JsNum.int 2)) JsField.absent (JsField.str "etag-2")]
    (fun _ => "etag-1") (by decide) (by decide) (by decide) (by decide) (by omega)
    (by decide) rfl (by decide)
